import Mathlib

/-!
Verification of the extraction-and-normalization pipeline of
`src/plugins/analysis/cve_lookup/internal/data_prep.py`.

Strings are modelled as lists of characters (`Str`).  Python dictionaries
are modelled as structures whose optional keys become `Option` fields.
Code paths that raise an uncaught exception (or call `exit`) are modelled
as the `none` outcome of an `Option`-valued function, so that an aborted
call returns no result at all.
-/

abbrev Str := List Char

/-- Shorthand turning a Lean string literal into the character-list model. -/
def str (s : String) : Str := s.data

/-- One entry of a `cpe_match` list in a CVE feed: the key `vulnerable`
holds a boolean and the key `cpe23Uri` holds the CPE identifier. -/
structure CpeMatch where
  vulnerable : Bool
  cpe23Uri : Str
deriving DecidableEq

/-- One node of the match-condition tree of a CVE feed entry.  A node is a
dictionary that carries an `operator` tag and, optionally, a `cpe_match`
list of leaf matches and, optionally, a `children` list of sub-nodes
(`none` models the absence of the key). -/
inductive Node where
  | mk (op : Str) (cpe_match : Option (List CpeMatch)) (children : Option (List Node)) : Node

/-- `iterate_nodes` from `data_prep.py` (lines 100-116): walk the node
list; a node carrying the key `cpe_match` contributes the `cpe23Uri` of
each of its matches flagged `vulnerable`; otherwise (`elif`) a node
carrying the key `children` is recursed into; a node carrying neither key
is skipped.  The accumulator `cpe_entries` is threaded through. -/
def iterate_nodes : List Node → List Str → List Str
  | [], cpe_entries => cpe_entries
  | Node.mk _ (some ms) _ :: rest, cpe_entries =>
      iterate_nodes rest
        (cpe_entries ++ (ms.filter (fun c => c.vulnerable)).map (fun c => c.cpe23Uri))
  | Node.mk _ none (some cs) :: rest, cpe_entries =>
      iterate_nodes rest (iterate_nodes cs cpe_entries)
  | Node.mk _ none none :: rest, cpe_entries =>
      iterate_nodes rest cpe_entries

/-- Spec-side description of the walk (section 4.1 of the design): the
identifiers of every leaf flagged vulnerable, in visit order, where a node
with leaf matches yields those and a node that instead has children is
recursed into, and a node with neither key yields nothing. -/
def spec_vulnerable_leaves : List Node → List Str
  | [] => []
  | Node.mk _ (some ms) _ :: rest =>
      (ms.filter (fun c => c.vulnerable)).map (fun c => c.cpe23Uri)
        ++ spec_vulnerable_leaves rest
  | Node.mk _ none (some cs) :: rest =>
      spec_vulnerable_leaves cs ++ spec_vulnerable_leaves rest
  | Node.mk _ none none :: rest => spec_vulnerable_leaves rest

/-- Rewrite the `operator` tag of every node, at every depth, leaving the
structure and the leaf matches unchanged. -/
def relabel_ops (f : Str → Str) : List Node → List Node
  | [] => []
  | Node.mk op cm none :: rest => Node.mk (f op) cm none :: relabel_ops f rest
  | Node.mk op cm (some cs) :: rest =>
      Node.mk (f op) cm (some (relabel_ops f cs)) :: relabel_ops f rest

theorem iterate_nodes_acc : ∀ (nodes : List Node) (acc : List Str),
    iterate_nodes nodes acc = acc ++ spec_vulnerable_leaves nodes
  | [], acc => by simp [iterate_nodes, spec_vulnerable_leaves]
  | Node.mk op (some ms) ch :: rest, acc => by
      rw [iterate_nodes, spec_vulnerable_leaves, iterate_nodes_acc rest, List.append_assoc]
  | Node.mk op none (some cs) :: rest, acc => by
      rw [iterate_nodes, spec_vulnerable_leaves, iterate_nodes_acc rest,
        iterate_nodes_acc cs, List.append_assoc]
  | Node.mk op none none :: rest, acc => by
      rw [iterate_nodes, spec_vulnerable_leaves, iterate_nodes_acc rest]

theorem spec_vulnerable_leaves_relabel (f : Str → Str) :
    ∀ (nodes : List Node), spec_vulnerable_leaves (relabel_ops f nodes) = spec_vulnerable_leaves nodes
  | [] => by simp [relabel_ops, spec_vulnerable_leaves]
  | Node.mk op (some ms) none :: rest => by
      rw [relabel_ops, spec_vulnerable_leaves, spec_vulnerable_leaves,
        spec_vulnerable_leaves_relabel f rest]
  | Node.mk op (some ms) (some cs) :: rest => by
      rw [relabel_ops, spec_vulnerable_leaves, spec_vulnerable_leaves,
        spec_vulnerable_leaves_relabel f rest]
  | Node.mk op none none :: rest => by
      rw [relabel_ops, spec_vulnerable_leaves, spec_vulnerable_leaves,
        spec_vulnerable_leaves_relabel f rest]
  | Node.mk op none (some cs) :: rest => by
      rw [relabel_ops, spec_vulnerable_leaves, spec_vulnerable_leaves,
        spec_vulnerable_leaves_relabel f rest, spec_vulnerable_leaves_relabel f cs]

/-- C1: for every node list and accumulator, `iterate_nodes` returns
exactly the accumulator extended with the `cpe23Uri` of every leaf match
flagged vulnerable, at any nesting depth; the result is independent of the
AND/OR `operator` tags (rewriting every tag changes nothing); and a node
carrying neither a `cpe_match` nor a `children` key contributes nothing. -/
theorem iterate_nodes_collects_vulnerable :
    (∀ (nodes : List Node) (acc : List Str),
        iterate_nodes nodes acc = acc ++ spec_vulnerable_leaves nodes)
    ∧ (∀ (f : Str → Str) (nodes : List Node) (acc : List Str),
        iterate_nodes (relabel_ops f nodes) acc = iterate_nodes nodes acc)
    ∧ (∀ (op : Str) (rest : List Node) (acc : List Str),
        iterate_nodes (Node.mk op none none :: rest) acc = iterate_nodes rest acc) := by
  refine ⟨iterate_nodes_acc, fun f nodes acc => ?_, fun op rest acc => ?_⟩
  · rw [iterate_nodes_acc, iterate_nodes_acc, spec_vulnerable_leaves_relabel]
  · rw [iterate_nodes]

/-- C10: a node carrying both a `cpe_match` list and a `children` list is
processed for its leaf matches only; the children are never visited (the
result does not depend on them at all), so a vulnerable leaf nested under
the children of such a node is omitted from the result. -/
theorem iterate_nodes_skips_children_of_match_node :
    (∀ (op : Str) (ms : List CpeMatch) (cs : List Node) (rest : List Node) (acc : List Str),
        iterate_nodes (Node.mk op (some ms) (some cs) :: rest) acc
          = iterate_nodes (Node.mk op (some ms) none :: rest) acc)
    ∧ iterate_nodes
        [Node.mk (str "AND") (some [])
          (some [Node.mk (str "OR") (some [⟨true, str "cpe:2.3:a:v:p:1:*:*:*:*:*:*:*"⟩]) none])] []
        = [] := by
  constructor
  · intro op ms cs rest acc
    rw [iterate_nodes, iterate_nodes]
  · simp [iterate_nodes]

/-- One item of the `CVE_Items` list of a feed document: its id
(`vuln.cve.CVE_data_meta.ID`), the first description entry
(`vuln.cve.description.description_data[0].value`) and the node list of
its match-condition tree (`vuln.configurations.nodes`). -/
structure CveItem where
  id : Str
  description : Str
  nodes : List Node

/-- The literal rejection marker tested by `extract_cve`. -/
def rejectMarker : Str := str "** REJECT **"

/-- The loop body of `extract_cve` (lines 134-150): an item with an empty
node list whose description does not start with the rejection marker puts
id and description into the summary list; otherwise (`elif`) an item with
a non-empty node list puts its id followed by the de-duplicated walked
identifiers into the CVE list; a rejected item with an empty node list
contributes to neither.  `list(set(..))` is modelled by `List.dedup`
(the iteration order of a Python set is not specified; `dedup` keeps the
first occurrence of each identifier). -/
def extract_cve_loop : List CveItem → List Str → List Str → List Str × List Str
  | [], cve_list, summary_list => (cve_list, summary_list)
  | vuln :: rest, cve_list, summary_list =>
      if vuln.nodes.isEmpty && !(rejectMarker.isPrefixOf vuln.description) then
        extract_cve_loop rest cve_list (summary_list ++ [vuln.id, vuln.description])
      else if !vuln.nodes.isEmpty then
        extract_cve_loop rest (cve_list ++ vuln.id :: (iterate_nodes vuln.nodes []).dedup)
          summary_list
      else
        extract_cve_loop rest cve_list summary_list

/-- `extract_cve` restricted to its in-memory part: the iteration over the
already-parsed `CVE_Items` list, returning the CVE list and the summary
list. -/
def extract_cve (items : List CveItem) : List Str × List Str :=
  extract_cve_loop items [] []

theorem extract_cve_loop_acc :
    ∀ (items : List CveItem) (cve_list summary_list : List Str),
      extract_cve_loop items cve_list summary_list
        = (cve_list ++ (extract_cve_loop items [] []).1,
           summary_list ++ (extract_cve_loop items [] []).2)
  | [], cve_list, summary_list => by simp [extract_cve_loop]
  | vuln :: rest, cve_list, summary_list => by
    by_cases h1 : (vuln.nodes.isEmpty && !(rejectMarker.isPrefixOf vuln.description)) = true
    · simp only [extract_cve_loop, h1, if_true]
      rw [extract_cve_loop_acc rest cve_list (summary_list ++ [vuln.id, vuln.description]),
        extract_cve_loop_acc rest [] ([] ++ [vuln.id, vuln.description])]
      simp
    · by_cases h2 : (!vuln.nodes.isEmpty) = true
      · simp only [extract_cve_loop, h1, h2, if_false, if_true]
        rw [extract_cve_loop_acc rest
            (cve_list ++ vuln.id :: (iterate_nodes vuln.nodes []).dedup) summary_list,
          extract_cve_loop_acc rest
            ([] ++ vuln.id :: (iterate_nodes vuln.nodes []).dedup) []]
        simp
      · simp only [extract_cve_loop, h1, h2, if_false]
        exact extract_cve_loop_acc rest cve_list summary_list

/-- C2: each feed item contributes independently (the outputs for
`item :: rest` are the outputs for `item` followed by those for `rest`),
and a single item is routed to exactly one channel: with a non-empty node
list, its id opens a group in the CVE output and the summary output is
empty; with an empty node list and a description not starting with
`** REJECT **`, the summary output is exactly id followed by description
and the CVE output is empty; with an empty node list and a rejected
description, both outputs are empty. -/
theorem extract_cve_routes_each_item_once :
    (∀ (item : CveItem) (rest : List CveItem),
        extract_cve (item :: rest)
          = ((extract_cve [item]).1 ++ (extract_cve rest).1,
             (extract_cve [item]).2 ++ (extract_cve rest).2))
    ∧ (∀ item : CveItem,
        (item.nodes ≠ [] →
          extract_cve [item] = (item.id :: (iterate_nodes item.nodes []).dedup, []))
        ∧ (item.nodes = [] → rejectMarker.isPrefixOf item.description = false →
          extract_cve [item] = ([], [item.id, item.description]))
        ∧ (item.nodes = [] → rejectMarker.isPrefixOf item.description = true →
          extract_cve [item] = ([], []))) := by
  constructor
  · intro item rest
    show extract_cve_loop (item :: rest) [] [] = _
    by_cases h1 : (item.nodes.isEmpty && !(rejectMarker.isPrefixOf item.description)) = true
    · simp only [extract_cve_loop, h1, if_true]
      rw [extract_cve_loop_acc rest [] ([] ++ [item.id, item.description])]
      simp [extract_cve, extract_cve_loop, h1]
    · by_cases h2 : (!item.nodes.isEmpty) = true
      · simp only [extract_cve_loop, h1, h2, if_false, if_true]
        rw [extract_cve_loop_acc rest ([] ++ item.id :: (iterate_nodes item.nodes []).dedup) []]
        simp [extract_cve, extract_cve_loop, h1, h2]
      · simp only [extract_cve_loop, h1, h2, if_false]
        simp [extract_cve, extract_cve_loop, h1, h2]
  · intro item
    refine ⟨fun hne => ?_, fun he hrej => ?_, fun he hrej => ?_⟩
    · have h2 : item.nodes.isEmpty = false := by
        simpa [List.isEmpty_iff] using hne
      simp [extract_cve, extract_cve_loop, h2]
    · have h2 : item.nodes.isEmpty = true := by simp [List.isEmpty_iff, he]
      simp [extract_cve, extract_cve_loop, h2, hrej]
    · have h2 : item.nodes.isEmpty = true := by simp [List.isEmpty_iff, he]
      simp [extract_cve, extract_cve_loop, h2, hrej]

/-- Witness for C2: the three routings evaluated on concrete items. -/
theorem extract_cve_routes_each_item_once_witness :
    extract_cve [⟨str "CVE-2012-0001", str "d",
        [Node.mk (str "OR") (some [⟨true, str "u"⟩]) none]⟩]
      = ([str "CVE-2012-0001", str "u"], [])
    ∧ extract_cve [⟨str "CVE-2012-0002", str "d", []⟩]
      = ([], [str "CVE-2012-0002", str "d"])
    ∧ extract_cve [⟨str "CVE-2012-0003", str "** REJECT ** d", []⟩] = ([], []) := by
  refine ⟨?_, ?_, ?_⟩
  · have h := (extract_cve_routes_each_item_once.2
      ⟨str "CVE-2012-0001", str "d", [Node.mk (str "OR") (some [⟨true, str "u"⟩]) none]⟩).1
      (by simp)
    rw [h]
    simp [iterate_nodes]
  · exact ((extract_cve_routes_each_item_once.2
      ⟨str "CVE-2012-0002", str "d", []⟩).2.1 rfl (by decide))
  · exact ((extract_cve_routes_each_item_once.2
      ⟨str "CVE-2012-0003", str "** REJECT ** d", []⟩).2.2 rfl (by decide))

/-- Python `re.split` with the pattern of `data_prep.py` (a colon with a
negative lookbehind for a backslash): split at every colon whose
immediately preceding character is not a backslash.  The accumulator `cur`
holds the characters of the current field in reverse, so its head is the
character examined just before the current one. -/
def splitUnescapedAux : List Char → List Char → List Str
  | [], cur => [cur.reverse]
  | c :: rest, cur =>
      if c = ':' && cur.head? != some '\\' then
        cur.reverse :: splitUnescapedAux rest []
      else
        splitUnescapedAux rest (c :: cur)

/-- The escape-aware tokenizer applied to a whole string. -/
def splitUnescaped (s : Str) : List Str := splitUnescapedAux s []

/-- Python `str.split(sep)`: split at every occurrence of the separator,
keeping empty fields. -/
def pySplitAux (sep : Char) : List Char → List Char → List Str
  | [], cur => [cur.reverse]
  | c :: rest, cur =>
      if c = sep then cur.reverse :: pySplitAux sep rest []
      else pySplitAux sep rest (c :: cur)

/-- Python `str.split(sep)` on a whole string. -/
def pySplit (sep : Char) (s : Str) : List Str := pySplitAux sep s []

/-- Python `re.match` with the CVE-id pattern of `data_prep.py`
(`CVE-`, four digits, `-`, one digit, anchored at the start only). -/
def is_cve_id : Str → Bool
  | 'C' :: 'V' :: 'E' :: '-' :: d1 :: d2 :: d3 :: d4 :: '-' :: d5 :: _ =>
      d1.isDigit && d2.isDigit && d3.isDigit && d4.isDigit && d5.isDigit
  | _ => false

/-- Replace every dot whose immediately preceding character is not a
backslash by a backslash-escaped dot; every other character, including
existing escapes, passes through unchanged.  `prev` is the original
preceding character. -/
def escape_dots_aux : List Char → Option Char → List Char
  | [], _ => []
  | c :: rest, prev =>
      if c = '.' && prev != some '\\' then
        '\\' :: '.' :: escape_dots_aux rest (some '.')
      else
        c :: escape_dots_aux rest (some c)

/-- The dot-escaping normalization applied to a whole component token. -/
def escape_dots (a : Str) : Str := escape_dots_aux a none

/-- Modelled from the spec: `unbinding` is imported from `meta.py`, which
is not among the sources under verification; per the design (section 4.3),
a component token exactly equal to a star becomes `ANY`, a token exactly
equal to a dash becomes `NA`, and any other token has every literal,
unescaped dot replaced by an escaped dot, with all other characters
untouched. -/
def unbind_attribute (a : Str) : Str :=
  if a = ['*'] then str "ANY"
  else if a = ['-'] then str "NA"
  else escape_dots a

/-- Modelled from the spec: `unbinding` normalizes each component token
individually, preserving field order and field count. -/
def unbinding (attributes : List Str) : List Str := attributes.map unbind_attribute

theorem band_true {a b : Bool} (h : (a && b) = true) : a = true ∧ b = true := by
  simpa using h

theorem bool_eq_false {b : Bool} (h : ¬ b = true) : b = false := by
  cases b
  · rfl
  · exact absurd rfl h

theorem bnot_true {b : Bool} (h : (!b) = true) : b = false := by
  cases b
  · rfl
  · exact absurd h (by decide)

theorem escape_dots_aux_filter :
    ∀ (a : List Char) (prev : Option Char),
      (escape_dots_aux a prev).filter (fun c => c != '\\')
        = a.filter (fun c => c != '\\')
  | [], _ => rfl
  | c :: rest, prev => by
    by_cases hc : c = '.'
    · subst hc
      by_cases hp : prev = some '\\'
      · simp [escape_dots_aux, hp, escape_dots_aux_filter rest, List.filter]
      · simp [escape_dots_aux, hp, escape_dots_aux_filter rest, List.filter]
    · simp [escape_dots_aux, hc, escape_dots_aux_filter rest, List.filter]

/-- C4: `unbinding` maps each token independently, preserving length and
order; a token equal to a star becomes `ANY`, one equal to a dash becomes
`NA`, and any other token is dot-escaped; dot escaping inserts backslashes
only (every character other than a backslash is preserved exactly, in
order); and on the spec examples, `0.7` becomes an escaped `0.7` and an
escaped-dollar `0.99` keeps its existing escape while its dot gains one. -/
theorem unbinding_normalizes_each_token :
    (∀ toks : List Str, (unbinding toks).length = toks.length)
    ∧ (∀ (toks : List Str) (i : Nat), (unbinding toks)[i]? = (toks[i]?).map unbind_attribute)
    ∧ unbind_attribute (str "*") = str "ANY"
    ∧ unbind_attribute (str "-") = str "NA"
    ∧ (∀ a : Str, a ≠ ['*'] → a ≠ ['-'] → unbind_attribute a = escape_dots a)
    ∧ (∀ a : Str, (escape_dots a).filter (fun c => c != '\\')
        = a.filter (fun c => c != '\\'))
    ∧ escape_dots (str "0.7") = str "0\\.7"
    ∧ escape_dots (str "\\$0.99") = str "\\$0\\.99" := by
  refine ⟨fun toks => by simp [unbinding], fun toks i => by simp [unbinding],
    by decide, by decide, fun a h1 h2 => ?_, fun a => escape_dots_aux_filter a none,
    by decide, by decide⟩
  simp [unbind_attribute, h1, h2]

/-- Witness for C4: the conditional conjunct applied to a concrete token
that is neither the star nor the dash sentinel. -/
theorem unbinding_normalizes_each_token_witness :
    unbind_attribute (str "1.2.5") = escape_dots (str "1.2.5")
    ∧ escape_dots (str "1.2.5") = str "1\\.2\\.5" := by
  constructor
  · exact unbinding_normalizes_each_token.2.2.2.2.1 (str "1.2.5") (by decide) (by decide)
  · decide

/-- Scan of one field with the lookbehind convention of the tokenizer:
true iff no character of the field triggers a split when the field is
scanned with `ctx` as the reversed preceding context.  With an empty
context this says: every colon in the field is immediately preceded,
inside the field, by a backslash. -/
def noSplit : List Char → List Char → Bool
  | [], _ => true
  | c :: rest, ctx => !(c = ':' && ctx.head? != some '\\') && noSplit rest (c :: ctx)

/-- A component field of a well-formed platform identifier: every embedded
colon is escaped by an immediately preceding backslash (and no colon
stands first), and the field does not end in a backslash character, since
otherwise the delimiter colon after it would look escaped and the string
would not follow the colon-delimited binding. -/
def fieldOk (p : Str) : Bool := noSplit p [] && p.reverse.head? != some '\\'

/-- Join fields with colon delimiters. -/
def joinColon : List Str → Str
  | [] => []
  | [p] => p
  | p :: rest => p ++ ':' :: joinColon rest

/-- Modelled from the spec (section 3): a well-formed PlatformIdentifier
is the literal prefix fields `cpe` and `2.3` followed by exactly 11
component fields, joined by colon delimiters, with embedded colons
backslash-escaped so that the delimitation is genuine. -/
def WellFormedCPE (s : Str) : Prop :=
  ∃ fields : List Str, fields.length = 11 ∧ (∀ f ∈ fields, fieldOk f = true)
    ∧ s = joinColon (str "cpe" :: str "2.3" :: fields)

theorem splitUnescapedAux_walk :
    ∀ (f rest ctx : List Char), noSplit f ctx = true →
      splitUnescapedAux (f ++ rest) ctx = splitUnescapedAux rest (f.reverse ++ ctx)
  | [], rest, ctx, _ => by simp
  | c :: f, rest, ctx, h => by
    obtain ⟨h1, h2⟩ := band_true h
    have hcf : (c = ':' && ctx.head? != some '\\') = false := bnot_true h1
    rw [List.cons_append, splitUnescapedAux, if_neg (by simp [hcf]),
      splitUnescapedAux_walk f rest (c :: ctx) h2]
    simp

theorem splitUnescapedAux_colon (rest ctx : List Char)
    (h : ctx.head? ≠ some '\\') :
    splitUnescapedAux (':' :: rest) ctx = ctx.reverse :: splitUnescapedAux rest [] := by
  rw [splitUnescapedAux, if_pos]
  simp [h]

theorem splitUnescaped_joinColon_fields :
    ∀ fields : List Str, fields ≠ [] → (∀ f ∈ fields, fieldOk f = true) →
      splitUnescaped (joinColon fields) = fields
  | [], h, _ => absurd rfl h
  | [p], _, hf => by
    have hp := hf p (by simp)
    have hns : noSplit p [] = true := (band_true hp).1
    show splitUnescapedAux (joinColon [p]) [] = [p]
    rw [joinColon, show p = p ++ [] by simp, splitUnescapedAux_walk p [] [] hns]
    simp [splitUnescapedAux]
  | p :: q :: rest, _, hf => by
    have hp := hf p (by simp)
    obtain ⟨hns, hlast⟩ := band_true hp
    have hlast2 : (p.reverse ++ ([] : List Char)).head? ≠ some '\\' := by
      simpa using hlast
    show splitUnescapedAux (joinColon (p :: q :: rest)) [] = _
    rw [show joinColon (p :: q :: rest) = p ++ ':' :: joinColon (q :: rest) from rfl,
      splitUnescapedAux_walk p (':' :: joinColon (q :: rest)) [] hns,
      splitUnescapedAux_colon _ _ hlast2,
      show splitUnescapedAux (joinColon (q :: rest)) [] = q :: rest from
        splitUnescaped_joinColon_fields (q :: rest) (by simp)
          (fun f hm => hf f (List.mem_cons_of_mem p hm))]
    simp

theorem noSplit_append_singleton :
    ∀ (xs : List Char) (c : Char) (ctx : List Char),
      noSplit (xs ++ [c]) ctx
        = (noSplit xs ctx && !(c = ':' && (xs.reverse ++ ctx).head? != some '\\'))
  | [], c, ctx => by simp [noSplit]
  | x :: xs, c, ctx => by
    rw [List.cons_append, noSplit, noSplit, noSplit_append_singleton xs c (x :: ctx),
      Bool.and_assoc]
    simp

theorem splitUnescapedAux_pieces :
    ∀ (s ctx : List Char), noSplit ctx.reverse [] = true →
      ∀ p ∈ splitUnescapedAux s ctx, noSplit p [] = true
  | [], ctx, h => by
    intro p hp
    simp only [splitUnescapedAux, List.mem_singleton] at hp
    exact hp ▸ h
  | c :: rest, ctx, h => by
    intro p hp
    by_cases hc : (c = ':' && ctx.head? != some '\\') = true
    · rw [splitUnescapedAux, if_pos hc] at hp
      rcases List.mem_cons.mp hp with hp1 | hp2
      · exact hp1 ▸ h
      · exact splitUnescapedAux_pieces rest [] rfl p hp2
    · rw [splitUnescapedAux, if_neg hc] at hp
      refine splitUnescapedAux_pieces rest (c :: ctx) ?_ p hp
      rw [List.reverse_cons, noSplit_append_singleton, h, Bool.true_and,
        List.reverse_reverse, List.append_nil, bool_eq_false hc]
      rfl

theorem splitUnescapedAux_shape :
    ∀ (s ctx : List Char), ∃ q qs, splitUnescapedAux s ctx = q :: qs
  | [], ctx => ⟨ctx.reverse, [], rfl⟩
  | c :: rest, ctx => by
    by_cases hc : (c = ':' && ctx.head? != some '\\') = true
    · exact ⟨ctx.reverse, splitUnescapedAux rest [], by rw [splitUnescapedAux, if_pos hc]⟩
    · obtain ⟨q, qs, hqs⟩ := splitUnescapedAux_shape rest (c :: ctx)
      exact ⟨q, qs, by rw [splitUnescapedAux, if_neg hc]; exact hqs⟩

theorem joinColon_splitUnescapedAux :
    ∀ (s ctx : List Char), joinColon (splitUnescapedAux s ctx) = ctx.reverse ++ s
  | [], ctx => by simp [splitUnescapedAux, joinColon]
  | c :: rest, ctx => by
    by_cases hc : (c = ':' && ctx.head? != some '\\') = true
    · have hcol : c = ':' := by
        have := (band_true hc).1
        simpa using this
      obtain ⟨q, qs, hqs⟩ := splitUnescapedAux_shape rest []
      rw [splitUnescapedAux, if_pos hc, hqs,
        show joinColon (ctx.reverse :: q :: qs) = ctx.reverse ++ ':' :: joinColon (q :: qs)
          from rfl,
        ← hqs, joinColon_splitUnescapedAux rest []]
      simp [hcol]
    · rw [splitUnescapedAux, if_neg hc,
        joinColon_splitUnescapedAux rest (c :: ctx)]
      simp

/-- C5: for every well-formed PlatformIdentifier, the escape-aware
tokenizer returns exactly the prefix fields `cpe` and `2.3` followed by
the 11 component fields, so dropping the two prefix tokens yields exactly
11 tokens; moreover, for any string, every colon left inside a returned
field is immediately preceded by a backslash (an escaped colon is never
treated as a delimiter), and rejoining the fields with colons restores the
input (no character is lost at an escaped colon). -/
theorem wellformed_cpe_splits_to_eleven_fields :
    (∀ s : Str, WellFormedCPE s →
        splitUnescaped s = str "cpe" :: str "2.3" :: (splitUnescaped s).drop 2
        ∧ ((splitUnescaped s).drop 2).length = 11)
    ∧ (∀ (s p : Str), p ∈ splitUnescaped s → noSplit p [] = true)
    ∧ (∀ s : Str, joinColon (splitUnescaped s) = s) := by
  refine ⟨fun s hs => ?_, fun s p hp => splitUnescapedAux_pieces s [] rfl p hp,
    fun s => by simpa using joinColon_splitUnescapedAux s []⟩
  obtain ⟨fields, hlen, hok, hjoin⟩ := hs
  have hall : ∀ f ∈ str "cpe" :: str "2.3" :: fields, fieldOk f = true := by
    intro f hm
    rcases List.mem_cons.mp hm with h1 | hm2
    · subst h1; decide
    · rcases List.mem_cons.mp hm2 with h2 | hm3
      · subst h2; decide
      · exact hok f hm3
  have hsplit : splitUnescaped s = str "cpe" :: str "2.3" :: fields := by
    rw [hjoin]
    exact splitUnescaped_joinColon_fields _ (by simp) hall
  rw [hsplit]
  simp [hlen]

/-- Witness for C5: the first conjunct applied to a concrete well-formed
platform identifier. -/
theorem wellformed_cpe_splits_to_eleven_fields_witness :
    ((splitUnescaped (str "cpe:2.3:a:1000guess:1000_guess:-:*:*:*:*:*:*:*")).drop 2).length
      = 11 := by
  have h := wellformed_cpe_splits_to_eleven_fields.1
    (str "cpe:2.3:a:1000guess:1000_guess:-:*:*:*:*:*:*:*")
    ⟨[str "a", str "1000guess", str "1000_guess", str "-", str "*", str "*", str "*",
      str "*", str "*", str "*", str "*"], by decide, by decide, by decide⟩
  exact h.2

/-- Evaluation of the Python expression splitting the current id at dashes
and taking index 1: when the split has fewer than two fields the index
raises, which is the `none` outcome. -/
def year_of (ident : Str) : Option Str := (pySplit '-' ident)[1]?

/-- The first loop of `setup_cve_table` (lines 189-201): scan the flat CVE
token list; an id-shaped token becomes the current id; any other token
emits the row made of the current id, the year of the current id, the
token itself, and its unbound components with the two prefix tokens
dropped.  The year extraction raises when the current id has no second
dash-separated field; the raise aborts the whole call (`none`).  The
initial current id is the empty string. -/
def setup_cve_rows : List Str → Str → Option (List (List Str))
  | [], _ => some []
  | entry :: rest, ident =>
      if is_cve_id entry then setup_cve_rows rest entry
      else
        match year_of ident with
        | none => none
        | some year =>
            (setup_cve_rows rest ident).map
              (fun t => ([ident, year, entry] ++ unbinding ((splitUnescaped entry).drop 2)) :: t)

/-- The second loop of `setup_cve_table` (lines 203-212): scan the summary
token list with a row buffer (empty when the loop starts, since the first
loop always flushes its buffer); an id-shaped token appends the id and its
year to the buffer; any other token completes the buffered row, which is
emitted, and the buffer resets.  An incomplete buffer at the end is
dropped, as in the source. -/
def setup_summary_rows : List Str → List Str → Option (List (List Str))
  | [], _ => some []
  | entry :: rest, row =>
      if is_cve_id entry then
        match year_of entry with
        | none => none
        | some year => setup_summary_rows rest (row ++ [entry, year])
      else
        (setup_summary_rows rest []).map (fun t => (row ++ [entry]) :: t)

/-- `setup_cve_table`: both loops over the two flat token sequences; an
uncaught exception in either loop aborts the call with no result at
all. -/
def setup_cve_table (cve_list summary_list : List Str) :
    Option (List (List Str) × List (List Str)) :=
  match setup_cve_rows cve_list (str ""), setup_summary_rows summary_list [] with
  | some t, some s => some (t, s)
  | _, _ => none

/-- The non-id tokens of a flat sequence, each paired with the most
recently seen id-shaped token before it (`ident` is the current id when
the scan starts). -/
def tokensWithIds : List Str → Str → List (Str × Str)
  | [], _ => []
  | entry :: rest, ident =>
      if is_cve_id entry then tokensWithIds rest entry
      else (ident, entry) :: tokensWithIds rest ident

/-- The row emitted for one identifier token under a given current id. -/
def cve_row (ident entry : Str) : List Str :=
  [ident, (year_of ident).getD [], entry] ++ unbinding ((splitUnescaped entry).drop 2)

theorem digit_ne_dash {d : Char} (h : d.isDigit = true) : ¬ d = '-' := by
  intro hc
  subst hc
  exact absurd h (by decide)

theorem is_cve_id_year : ∀ e : Str, is_cve_id e = true → (year_of e).isSome = true := by
  intro e h
  unfold is_cve_id at h
  split at h
  · next d1 d2 d3 d4 d5 tail =>
    obtain ⟨h1234, h5⟩ := band_true h
    obtain ⟨h123, h4⟩ := band_true h1234
    obtain ⟨h12, h3⟩ := band_true h123
    obtain ⟨h1, h2⟩ := band_true h12
    have n1 := digit_ne_dash h1
    have n2 := digit_ne_dash h2
    have n3 := digit_ne_dash h3
    have n4 := digit_ne_dash h4
    simp [year_of, pySplit, pySplitAux, n1, n2, n3, n4]
  · exact absurd h (by simp)

theorem setup_cve_rows_spec :
    ∀ (lst : List Str) (ident : Str),
      (∀ p ∈ tokensWithIds lst ident, is_cve_id p.1 = true) →
      setup_cve_rows lst ident
        = some ((tokensWithIds lst ident).map (fun p => cve_row p.1 p.2))
  | [], ident, _ => rfl
  | entry :: rest, ident, h => by
    by_cases hid : is_cve_id entry = true
    · simp only [setup_cve_rows, tokensWithIds, hid, if_true]
      exact setup_cve_rows_spec rest entry
        (fun p hp => h p (by simp only [tokensWithIds, hid, if_true]; exact hp))
    · have hf : is_cve_id entry = false := bool_eq_false hid
      have hmem : (ident, entry) ∈ tokensWithIds (entry :: rest) ident := by
        simp [tokensWithIds, hf]
      have hciy : is_cve_id ident = true := h _ hmem
      obtain ⟨y, hy⟩ := Option.isSome_iff_exists.mp (is_cve_id_year ident hciy)
      have ih := setup_cve_rows_spec rest ident
        (fun p hp => h p (by simp [tokensWithIds, hf, hp]))
      simp [setup_cve_rows, tokensWithIds, hf, hy, ih, cve_row]

theorem setup_summary_rows_total :
    ∀ (summary_list row : List Str), ∃ t, setup_summary_rows summary_list row = some t
  | [], _ => ⟨[], rfl⟩
  | entry :: rest, row => by
    by_cases hid : is_cve_id entry = true
    · obtain ⟨y, hy⟩ := Option.isSome_iff_exists.mp (is_cve_id_year entry hid)
      obtain ⟨t, ht⟩ := setup_summary_rows_total rest (row ++ [entry, y])
      exact ⟨t, by simp only [setup_summary_rows, hid, if_true, hy]; exact ht⟩
    · have hf : is_cve_id entry = false := bool_eq_false hid
      obtain ⟨t, ht⟩ := setup_summary_rows_total rest []
      exact ⟨(row ++ [entry]) :: t, by simp [setup_summary_rows, hf, ht]⟩

theorem tokensWithIds_count :
    ∀ (lst : List Str) (ident : Str),
      (tokensWithIds lst ident).length = (lst.filter (fun e => !(is_cve_id e))).length
  | [], _ => rfl
  | entry :: rest, ident => by
    by_cases hid : is_cve_id entry = true
    · simp [tokensWithIds, List.filter, hid, tokensWithIds_count rest]
    · have hf : is_cve_id entry = false := bool_eq_false hid
      simp [tokensWithIds, List.filter, hf, tokensWithIds_count rest]

/-- C3 (amended): whenever the most recent id of every non-id token is
id-shaped — in particular whenever an id token precedes every non-id
token — `setup_cve_table` emits exactly one row per non-id token, in
order, each beginning with that most recent id and the year field of that
id, followed by the token and its 11 unbound components; the number of
such rows equals the number of non-id tokens; and on the two-token spec
example it yields exactly the single expected row. -/
theorem setup_cve_table_one_row_per_identifier :
    (∀ (cve_list summary_list : List Str),
        (∀ p ∈ tokensWithIds cve_list (str ""), is_cve_id p.1 = true) →
        ∃ st, setup_cve_table cve_list summary_list
          = some ((tokensWithIds cve_list (str "")).map (fun p => cve_row p.1 p.2), st))
    ∧ (∀ (cve_list : List Str) (ident : Str),
        (tokensWithIds cve_list ident).length
          = (cve_list.filter (fun e => !(is_cve_id e))).length)
    ∧ setup_cve_table
        [str "CVE-2012-0001", str "cpe:2.3:a:1000guess:1000_guess:-:*:*:*:*:*:*:*"] []
      = some ([[str "CVE-2012-0001", str "2012",
          str "cpe:2.3:a:1000guess:1000_guess:-:*:*:*:*:*:*:*", str "a", str "1000guess",
          str "1000_guess", str "NA", str "ANY", str "ANY", str "ANY", str "ANY",
          str "ANY", str "ANY", str "ANY"]], []) := by
  refine ⟨fun cve_list summary_list h => ?_, tokensWithIds_count, by decide⟩
  obtain ⟨st, hst⟩ := setup_summary_rows_total summary_list []
  refine ⟨st, ?_⟩
  rw [setup_cve_table, setup_cve_rows_spec cve_list (str "") h, hst]

/-- Witness for C3: the amended statement applied to the concrete
sequence of one id token followed by one identifier token. -/
theorem setup_cve_table_one_row_per_identifier_witness :
    ∃ st, setup_cve_table [str "CVE-2012-0002", str "cpe:2.3:a:1024cms:1024_cms:0.7:*:*:*:*:*:*:*"] []
      = some ((tokensWithIds [str "CVE-2012-0002", str "cpe:2.3:a:1024cms:1024_cms:0.7:*:*:*:*:*:*:*"]
          (str "")).map (fun p => cve_row p.1 p.2), st) :=
  setup_cve_table_one_row_per_identifier.1
    [str "CVE-2012-0002", str "cpe:2.3:a:1024cms:1024_cms:0.7:*:*:*:*:*:*:*"] []
    (by decide)

/-- Counterexample to C3 as stated: on the flat sequence made of the
single non-id token `a`, the call aborts and emits no row at all, although
the claim demands exactly one row for that token (the year extraction from
the initial empty current id fails). -/
theorem setup_cve_table_counterexample_aborts :
    setup_cve_table [str "a"] [] = none
    ∧ ([str "a"].filter (fun e => !(is_cve_id e))).length = 1 := by
  exact ⟨rfl, rfl⟩

/-- C9 (amended): an identifier token at the head of the flat token
sequence is processed with the initial empty current id, and extracting
the year from the empty id fails — its dash split has a single field — so
the whole call aborts with no table instead of emitting a row. -/
theorem setup_cve_table_fails_before_first_id :
    ∀ (entry : Str) (rest summary_list : List Str), is_cve_id entry = false →
      setup_cve_table (entry :: rest) summary_list = none := by
  intro entry rest summary_list h
  have hrows : setup_cve_rows (entry :: rest) (str "") = none := by
    simp [setup_cve_rows, h, year_of, pySplit, pySplitAux]
  simp [setup_cve_table, hrows]

/-- Witness for C9: the amended statement applied to a concrete identifier
token standing before any id token. -/
theorem setup_cve_table_fails_before_first_id_witness :
    setup_cve_table [str "cpe:2.3:a:1024cms:1024_cms:0.7:*:*:*:*:*:*:*"] [] = none :=
  setup_cve_table_fails_before_first_id
    (str "cpe:2.3:a:1024cms:1024_cms:0.7:*:*:*:*:*:*:*") [] [] (by decide)

/-- Counterexample to C9 as stated: the claim says a row is emitted for an
identifier token seen before any id token; on this concrete input the call
returns no table at all, so in particular it emits no row. -/
theorem setup_cve_table_counterexample_no_row_emitted :
    setup_cve_table [str "cpe:2.3:a:1000guess:1000_guess:-:*:*:*:*:*:*:*"] [] = none := by
  rfl

/-- `setup_cpe_table` (lines 218-230): for each identifier string of the
dictionary list, in order, unbind its components (two prefix tokens
dropped) and emit the row made of the original string followed by the
unbound components; no id or year prefix is added. -/
def setup_cpe_table : List Str → List (List Str)
  | [] => []
  | cpe :: rest => (cpe :: unbinding ((splitUnescaped cpe).drop 2)) :: setup_cpe_table rest

/-- C6: the dictionary table has one row per input identifier, in input
order; the row at every index is the original identifier string verbatim
followed by its unbound components and nothing else; and for a well-formed
identifier a row has exactly 1 + 11 columns. -/
theorem setup_cpe_table_preserves_identifier :
    (∀ cpe_list : List Str, (setup_cpe_table cpe_list).length = cpe_list.length)
    ∧ (∀ (cpe_list : List Str) (i : Nat),
        (setup_cpe_table cpe_list)[i]?
          = (cpe_list[i]?).map (fun cpe => cpe :: unbinding ((splitUnescaped cpe).drop 2)))
    ∧ (∀ cpe : Str, WellFormedCPE cpe →
        (cpe :: unbinding ((splitUnescaped cpe).drop 2)).length = 12) := by
  refine ⟨fun cpe_list => ?_, fun cpe_list i => ?_, fun cpe hw => ?_⟩
  · induction cpe_list with
    | nil => rfl
    | cons c rest ih => simp [setup_cpe_table, ih]
  · induction cpe_list generalizing i with
    | nil => simp [setup_cpe_table]
    | cons c rest ih =>
      cases i with
      | zero => simp [setup_cpe_table]
      | succ n => simp [setup_cpe_table, ih]
  · obtain ⟨fields, hlen, hok, hjoin⟩ := hw
    have hall : ∀ f ∈ str "cpe" :: str "2.3" :: fields, fieldOk f = true := by
      intro f hm
      rcases List.mem_cons.mp hm with h1 | hm2
      · subst h1; decide
      · rcases List.mem_cons.mp hm2 with h2 | hm3
        · subst h2; decide
        · exact hok f hm3
    have hsplit : splitUnescaped cpe = str "cpe" :: str "2.3" :: fields := by
      rw [hjoin]
      exact splitUnescaped_joinColon_fields _ (by simp) hall
    simp [hsplit, unbinding, hlen]

/-- Witness for C6: the well-formedness conjunct applied to a concrete
identifier. -/
theorem setup_cpe_table_preserves_identifier_witness :
    ((str "cpe:2.3:a:1024cms:1024_cms:0.7:*:*:*:*:*:*:*")
        :: unbinding ((splitUnescaped (str "cpe:2.3:a:1024cms:1024_cms:0.7:*:*:*:*:*:*:*")).drop 2)).length
      = 12 :=
  setup_cpe_table_preserves_identifier.2.2
    (str "cpe:2.3:a:1024cms:1024_cms:0.7:*:*:*:*:*:*:*")
    ⟨[str "a", str "1024cms", str "1024_cms", str "0.7", str "*", str "*", str "*",
      str "*", str "*", str "*", str "*"], by decide, by decide, by decide⟩

/-- One element of the parsed markup tree of the dictionary document: a
tag, an attribute dictionary, and the child elements. -/
inductive XmlElem where
  | mk (tag : Str) (attrib : List (Str × Str)) (children : List XmlElem) : XmlElem

/-- The tag of an element. -/
def XmlElem.tag : XmlElem → Str
  | .mk t _ _ => t

/-- The attribute dictionary of an element. -/
def XmlElem.attrib : XmlElem → List (Str × Str)
  | .mk _ a _ => a

/-- The child elements of an element. -/
def XmlElem.children : XmlElem → List XmlElem
  | .mk _ _ c => c

/-- Substring containment, as the Python `in` test on strings: true iff
the needle occurs contiguously in the haystack (always true for the empty
needle). -/
def hasSubstr : Str → Str → Bool
  | [], needle => needle.isEmpty
  | c :: rest, needle => needle.isPrefixOf (c :: rest) || hasSubstr rest needle

/-- The tag test of `extract_cpe`: Python substring containment of the
literal `cpe23-item` in the tag string. -/
def tag_has_cpe23 (t : Str) : Bool := hasSubstr t (str "cpe23-item")

/-- The attribute access of `extract_cpe` on the key `name`: a missing key
raises, which is the `none` outcome. -/
def attrib_name (a : List (Str × Str)) : Option Str := a.lookup (str "name")

/-- The inner loop of `extract_cpe`: over the children of one entry; an
item whose tag contains `cpe23-item` contributes its `name` attribute; a
matching item without a `name` attribute raises (`none`). -/
def extract_cpe_items : List XmlElem → Option (List Str)
  | [] => some []
  | item :: rest =>
      if tag_has_cpe23 item.tag then
        match attrib_name item.attrib with
        | none => none
        | some nm => (extract_cpe_items rest).map (fun t => nm :: t)
      else extract_cpe_items rest

/-- The outer loop of `extract_cpe` (lines 159-179): over the children of
the root only, and for each of them over its own children only.  Elements
at any other depth are never visited. -/
def extract_cpe_entries : List XmlElem → Option (List Str)
  | [] => some []
  | entry :: rest =>
      match extract_cpe_items entry.children, extract_cpe_entries rest with
      | some xs, some ys => some (xs ++ ys)
      | _, _ => none

/-- `extract_cpe` restricted to its in-memory part: the two nested loops
over the already-parsed root element. -/
def extract_cpe (root : XmlElem) : Option (List Str) :=
  extract_cpe_entries root.children

/-- The name collected from one grandchild of the root, when its tag
matches. -/
def grandchild_name (item : XmlElem) : Option Str :=
  if tag_has_cpe23 item.tag then attrib_name item.attrib else none

theorem extract_cpe_items_spec :
    ∀ items : List XmlElem,
      (∀ item ∈ items, tag_has_cpe23 item.tag = true → (attrib_name item.attrib).isSome = true) →
      extract_cpe_items items = some (items.filterMap grandchild_name)
  | [], _ => rfl
  | item :: rest, h => by
    have ih := extract_cpe_items_spec rest (fun it hm => h it (List.mem_cons_of_mem _ hm))
    by_cases ht : tag_has_cpe23 item.tag = true
    · obtain ⟨nm, hnm⟩ := Option.isSome_iff_exists.mp (h item (by simp) ht)
      simp [extract_cpe_items, List.filterMap_cons, grandchild_name, ht, hnm, ih]
    · have hf : tag_has_cpe23 item.tag = false := bool_eq_false ht
      simp [extract_cpe_items, List.filterMap_cons, grandchild_name, hf, ih]

theorem extract_cpe_entries_spec :
    ∀ entries : List XmlElem,
      (∀ item ∈ (entries.map XmlElem.children).flatten,
          tag_has_cpe23 item.tag = true → (attrib_name item.attrib).isSome = true) →
      extract_cpe_entries entries
        = some ((entries.map XmlElem.children).flatten.filterMap grandchild_name)
  | [], _ => rfl
  | entry :: rest, h => by
    have hitems := extract_cpe_items_spec entry.children
      (fun it hm => h it (by simp [List.flatten_cons]; exact Or.inl hm))
    have ih := extract_cpe_entries_spec rest
      (fun it hm => h it (by simp [List.flatten_cons]; exact Or.inr (by simpa using hm)))
    simp [extract_cpe_entries, hitems, ih, List.flatten_cons, List.filterMap_append]

/-- C7 (amended): `extract_cpe` examines exactly the grandchildren of the
root element (the children of its children), in document order, and
returns the `name` attribute of each one whose tag contains `cpe23-item`,
provided each matching grandchild carries a `name` attribute; elements at
any other depth of the tree are not visited. -/
theorem extract_cpe_collects_matching_grandchildren :
    ∀ root : XmlElem,
      (∀ item ∈ (root.children.map XmlElem.children).flatten,
          tag_has_cpe23 item.tag = true → (attrib_name item.attrib).isSome = true) →
      extract_cpe root
        = some ((root.children.map XmlElem.children).flatten.filterMap grandchild_name) :=
  fun root h => extract_cpe_entries_spec root.children h

/-- Witness for C7: the amended statement applied to a concrete document
whose single entry holds one matching item. -/
theorem extract_cpe_collects_matching_grandchildren_witness :
    extract_cpe (XmlElem.mk (str "cpe-list") []
        [XmlElem.mk (str "cpe-item") []
          [XmlElem.mk (str "cpe23-item") [(str "name", str "cpe:2.3:a:v:p:1:*:*:*:*:*:*:*")] []]])
      = some (((XmlElem.mk (str "cpe-list") []
          [XmlElem.mk (str "cpe-item") []
            [XmlElem.mk (str "cpe23-item") [(str "name", str "cpe:2.3:a:v:p:1:*:*:*:*:*:*:*")] []]]).children.map
            XmlElem.children).flatten.filterMap grandchild_name) :=
  extract_cpe_collects_matching_grandchildren
    (XmlElem.mk (str "cpe-list") []
      [XmlElem.mk (str "cpe-item") []
        [XmlElem.mk (str "cpe23-item") [(str "name", str "cpe:2.3:a:v:p:1:*:*:*:*:*:*:*")] []]])
    (by intro item hm ht
        simp [XmlElem.children, List.flatten] at hm
        subst hm
        decide)

/-- Counterexample to C7 as stated: a platform-identifier item that is a
direct child of the root — depth 1, not depth 2 — carries a `name`
attribute, yet `extract_cpe` returns no identifier at all: the claim says
its name is returned wherever the element occurs in the tree. -/
theorem extract_cpe_counterexample_depth_one_item_missed :
    extract_cpe (XmlElem.mk (str "cpe-list") []
        [XmlElem.mk (str "cpe23-item") [(str "name", str "cpe:2.3:a:v:p:2:*:*:*:*:*:*:*")] []])
      = some []
    ∧ tag_has_cpe23 (str "cpe23-item") = true
    ∧ attrib_name [(str "name", str "cpe:2.3:a:v:p:2:*:*:*:*:*:*:*")]
        = some (str "cpe:2.3:a:v:p:2:*:*:*:*:*:*:*") := by
  exact ⟨rfl, by decide, by decide⟩

/-- Reading and parsing the feed document for `extract_cve`: `none` models
a document that is missing, unreadable, or malformed — the failing open or
load, whose exception aborts the call before any item is processed. -/
def extract_cve_file (doc : Option (List CveItem)) : Option (List Str × List Str) :=
  match doc with
  | none => none
  | some items => some (extract_cve items)

/-- Parsing the dictionary document for `extract_cpe`: `none` models
malformed markup, on which the call exits before visiting any element. -/
def extract_cpe_file (doc : Option XmlElem) : Option (List Str) :=
  match doc with
  | none => none
  | some root => extract_cpe root

/-- C8: an unavailable or malformed document produces no output at all
rather than a truncated one: the feed extraction returns `none` exactly on
the unavailable document and otherwise both lists in full, and the
dictionary extraction returns `none` on malformed markup and otherwise
processes the whole tree (aborting likewise, with no list, if a matching
item lacks its mandatory attribute). -/
theorem extract_aborts_with_no_partial_result :
    (extract_cve_file none = none)
    ∧ (∀ items : List CveItem, extract_cve_file (some items) = some (extract_cve items))
    ∧ (extract_cpe_file none = none)
    ∧ (∀ root : XmlElem, extract_cpe_file (some root) = extract_cpe root) :=
  ⟨rfl, fun _ => rfl, rfl, fun _ => rfl⟩
